import Mathlib

/-!
Verification of the cosh bytecode VM core against its specification.

The Rust source (src/chunk.rs, src/vm/vm_arithmetic.rs, src/vm/vm_ip.rs)
is shallowly embedded below:

* machine integers `i32`/`u32` are modelled as `Int`/`Nat` with explicit
  range conditions and wrap-around where the source relies on it;
* `f64` payloads are modelled as exact rationals `ℚ`.  Every theorem that
  touches floats only uses values and operations on which IEEE-754 double
  arithmetic is exact (small integers, halves), so the model agrees with
  the source there.  IEEE rounding, infinities and NaN are not modelled
  and no theorem depends on them;
* `Rc<RefCell<...>>` shared storage is modelled by tagging each
  shared-storage constructor with an abstract location (`Nat`).  Cloning
  that allocates a fresh `Rc` is modelled by drawing a fresh location
  from a counter; `Rc::clone` (sharing) keeps the location;
* a Rust `panic!`/`abort` (e.g. `unwrap()` on `None`, `BigInt` division
  by zero) is modelled by an explicit `panic`-like result constructor or
  by `Option.none`, as noted at each definition.
-/

namespace Cosh

/-! ## Machine-integer helpers -/

/-- Smallest `i32` value. -/
def i32Min : Int := -(2 ^ 31)

/-- Largest `i32` value. -/
def i32Max : Int := 2 ^ 31 - 1

/-- Largest `u64` value. -/
def u64Max : Int := 2 ^ 64 - 1

/-- Whether an integer is representable as an `i32`. -/
def fitsI32 (n : Int) : Prop := i32Min ≤ n ∧ n ≤ i32Max

instance (n : Int) : Decidable (fitsI32 n) := by
  unfold fitsI32; infer_instance

/-! ## The Value type (src/chunk.rs, `enum Value`)

Payloads that are live OS resources (`File`, `ReadDir`, child stdio,
compiled regexes, datetimes) are opaque to every claim under
verification; they are modelled by their shared-storage location alone
(resp. by an abstract timestamp for the by-value datetime variants).
The string regex cache is omitted: it does not take part in any claim.
`Ipv4Net`/`Ipv6Net` are (address, prefix-length) pairs with the address
as a `Nat` below `2^32`/`2^128`. -/

inductive Value where
  | null
  | bool (b : Bool)
  | int (n : Int)
  | bigint (n : Int)
  | float (q : ℚ)
  /-- `String(Rc<RefCell<StringTriple>>)`: raw text and escaped text. -/
  | str (raw escaped : String)
  | command (s : String) (params : List Char)
  | commandUncaptured (s : String)
  | list (loc : Nat) (elems : List Value)
  | hash (loc : Nat) (entries : List (String × Value))
  | setv (loc : Nat) (entries : List (String × Value))
  /-- `AnonymousFunction(Rc<RefCell<Chunk>>, Rc<RefCell<Vec<Value>>>)`. -/
  | anonFn (chunkId : Nat) (lvsLoc : Nat) (locals : List Value)
  | coreFn (fnId : Nat)
  | namedFn (chunkId : Nat)
  /-- `Generator(Rc<RefCell<GeneratorObject>>)`: the generator's own cell
  location doubles as the location of its local-variable stack. -/
  | gen (lvsLoc : Nat) (index : Nat) (chunkId : Nat)
        (locals : List Value) (genArgs : List Value)
  | commandGen (loc : Nat)
  /-- `KeysGenerator(Rc<RefCell<HashWithIndex>>)`. -/
  | keysGen (loc : Nat) (idx : Nat) (h : Value)
  | valuesGen (loc : Nat) (idx : Nat) (h : Value)
  | eachGen (loc : Nat) (idx : Nat) (h : Value)
  | fileReader (loc : Nat)
  | fileWriter (loc : Nat)
  | dirHandle (loc : Nat)
  | dateTimeNT (stamp : Int)
  | dateTimeOT (stamp : Int)
  | ipv4 (addr : Nat) (plen : Nat)
  | ipv6 (addr : Nat) (plen : Nat)
  | ipv4range (rs re : Nat)
  | ipv6range (rs re : Nat)
  | ipset (loc : Nat)
  | multiGen (loc : Nat) (gens : List Value)

/-! ## Truthiness (src/chunk.rs, `Value::to_bool`, lines 1394-1407)

The source matches, in order: `Bool(b)`, `Int(0) => false`,
`Float(n) => *n != 0.0`, `String(..)`, `BigInt(n) => *n == Zero::zero()`,
`Null => false`, `_ => true`.  A nonzero `Int` falls to the catch-all.
Note the `BigInt` arm really is `==` in the source (where the parallel
`Float` arm uses `!=`). -/

def Value.to_bool : Value → Bool
  | .bool b => b
  | .int n => !(n == 0)
  | .float q => !(q == 0)
  | .str raw _ => !(raw == "" || raw == "0" || raw == "0.0")
  | .bigint n => n == 0
  | .null => false
  | _ => true

/-! ## Coercions (src/chunk.rs, `Value::to_int` / `to_bigint` / `to_float`
/ `to_string`)

Rust's `str::parse::<i32>` / `::<BigInt>` accept an optional sign
followed by decimal digits; `parse::<i32>` additionally requires the
value to fit in `i32`.  (Rust rejects a bare sign and empty input, as
below.  Rust also rejects leading `+`-after-`-` etc., matched by the
single-sign grammar here.) -/

def parseDecDigits : List Char → Option Nat
  | [] => none
  | cs =>
    if cs.all Char.isDigit then
      some (cs.foldl (fun a c => a * 10 + (c.toNat - 48)) 0)
    else none

def parseBigIntString (s : String) : Option Int :=
  match s.data with
  | '+' :: cs => (parseDecDigits cs).map Int.ofNat
  | '-' :: cs => (parseDecDigits cs).map (fun n => -(n : Int))
  | cs => (parseDecDigits cs).map Int.ofNat

def parseI32String (s : String) : Option Int :=
  (parseBigIntString s).bind (fun n => if fitsI32 n then some n else none)

/-- Rust's `f as i32` saturating cast: truncate toward zero, clamp to
the `i32` range.  (NaN, which casts to 0, has no counterpart in the
rational model.) -/
def f64AsI32 (q : ℚ) : Int :=
  let t : Int := if 0 ≤ q then ⌊q⌋ else ⌈q⌉
  max i32Min (min i32Max t)

/-- Rust's `f64` literal parser, restricted to the sign/digits/fraction
forms; exponent notation and `inf`/`NaN` are not modelled (no theorem
reaches this function on a string at all). -/
def parseF64String (s : String) : Option ℚ :=
  let core : List Char → Option ℚ := fun cs =>
    match cs.splitOn '.' with
    | [ds] => (parseDecDigits ds).map (fun n => (n : ℚ))
    | [ds, fs] =>
      match parseDecDigits ds, parseDecDigits fs with
      | some n, some f => some ((n : ℚ) + (f : ℚ) / ((10 : ℚ) ^ fs.length))
      | _, _ => none
    | _ => none
  match s.data with
  | '+' :: cs => core cs
  | '-' :: cs => (core cs).map Neg.neg
  | cs => core cs

/-- `Value::to_int` (src/chunk.rs lines 1335-1351). -/
def Value.to_int : Value → Option Int
  | .int n => some n
  | .bigint n => if fitsI32 n then some n else none
  | .float q => some (f64AsI32 q)
  | .str raw _ => parseI32String raw
  | .null => some 0
  | _ => none

/-- `Value::to_bigint` (src/chunk.rs lines 1355-1371).  Note the source
converts a `Float` by way of `*f as i32` (an `i32` cast), not directly. -/
def Value.to_bigint : Value → Option Int
  | .int n => some n
  | .bigint n => some n
  | .float q => some (f64AsI32 q)
  | .str raw _ => parseBigIntString raw
  | .null => some 0
  | _ => none

/-- `Value::to_float` (src/chunk.rs lines 1376-1392).  `BigInt::to_f64`
is exact in the rational model (IEEE rounding for magnitudes ≥ 2^53 is
not modelled; no theorem uses such values). -/
def Value.to_float : Value → Option ℚ
  | .int n => some n
  | .bigint n => some n
  | .float q => some q
  | .str raw _ => parseF64String raw
  | .null => some 0
  | _ => none

/-- Result of `Value::to_string` (which `abort`s the process when called
on `Value::String`). -/
inductive StrRes where
  | panic
  | noStr
  | ok (s : String)

/-- Dotted-quad text of a 32-bit address. -/
def ipv4Repr (addr : Nat) : String :=
  toString (addr / 2 ^ 24 % 256) ++ "." ++ toString (addr / 2 ^ 16 % 256)
    ++ "." ++ toString (addr / 2 ^ 8 % 256) ++ "." ++ toString (addr % 256)

/-- Placeholder for Rust's shortest-roundtrip `f64` display; the exact
digit string is never inspected by any theorem. -/
def floatRepr (q : ℚ) : String := "float:" ++ toString q

/-- Placeholder for the RFC-5952 compressed IPv6 textual form; never
inspected by any theorem. -/
def ipv6Repr (addr : Nat) : String := "ipv6:" ++ toString addr

/-- `Value::to_string` (src/chunk.rs lines 1247-1331): aborts on
`Value::String`, formats numerics and IP objects, maps `Null` to the
empty string, and is undefined (`None`) elsewhere.  The `IpSet` text
depends on opaque `IpRange` storage and is abstracted (never reached by
a theorem). -/
def Value.to_string_res : Value → StrRes
  | .str _ _ => .panic
  | .int n => .ok (toString n)
  | .bigint n => .ok (toString n)
  | .float q => .ok (floatRepr q)
  | .ipv4 addr plen =>
    if plen == 32 then .ok (ipv4Repr addr)
    else .ok (ipv4Repr addr ++ "/" ++ toString plen)
  | .ipv6 addr plen =>
    if plen == 128 then .ok (ipv6Repr addr)
    else .ok (ipv6Repr addr ++ "/" ++ toString plen)
  | .ipv4range rs re => .ok (ipv4Repr rs ++ "-" ++ ipv4Repr re)
  | .ipv6range rs re => .ok (ipv6Repr rs ++ "-" ++ ipv6Repr re)
  | .ipset loc => .ok ("ipset:" ++ toString loc)
  | .null => .ok ""
  | _ => .noStr

/-- Modelled from the spec: `to_string_2` lives in src/vm.rs, which is
not part of the provided sources.  Per the spec's "stringwise
comparison" fallback it adapts the optional owned string produced by
`Value::to_string` to an optional borrowed string: the identity on
content. -/
def to_string_2 (s : Option String) : Option String := s

/-! ## Arithmetic kernel (src/vm/vm_arithmetic.rs) -/

/-- `int_to_bigint` (lines 12-14). -/
def int_to_bigint (i : Int) : Value := .bigint i

/-- `bigint_to_float` (lines 17-19): the source goes through
`i.to_u64().unwrap()`, so a `BigInt` outside the `u64` range (negative
in particular) panics the process — modelled by `none`.  The `u64` to
`f64` conversion is exact in the rational model (rounding above 2^53
not modelled; no theorem uses such values). -/
def bigint_to_float (i : Int) : Option Value :=
  if 0 ≤ i ∧ i ≤ u64Max then some (.float (i : ℚ)) else none

/-- `int_to_float` (lines 22-24). -/
def int_to_float (i : Int) : Value := .float (i : ℚ)

/-- `add_ints` (lines 28-38): `checked_add`, promoting the exact sum to
`BigInt` on overflow (`BigInt::from(n1) + n2` is the exact sum). -/
def add_ints (n1 n2 : Int) : Value :=
  if fitsI32 (n1 + n2) then .int (n1 + n2) else .bigint (n1 + n2)

/-- `subtract_ints` (lines 42-52): computes `n2 - n1`. -/
def subtract_ints (n1 n2 : Int) : Value :=
  if fitsI32 (n2 - n1) then .int (n2 - n1) else .bigint (n2 - n1)

/-- `multiply_ints` (lines 56-66). -/
def multiply_ints (n1 n2 : Int) : Value :=
  if fitsI32 (n1 * n2) then .int (n1 * n2) else .bigint (n1 * n2)

/-- `divide_ints` (lines 70-80): `n2.checked_div(n1)` is `None` when
`n1 = 0` or on the single overflowing case `i32::MIN / -1`; the `None`
arm then evaluates `BigInt::from(n2) / n1`, which panics (modelled as
`none`) when `n1 = 0`.  `Int.tdiv` is Rust's truncated division. -/
def divide_ints (n1 n2 : Int) : Option Value :=
  if n1 = 0 ∨ (n2 = i32Min ∧ n1 = -1) then
    -- checked_div returned None
    if n1 = 0 then none else some (.bigint (Int.tdiv n2 n1))
  else
    some (.int (Int.tdiv n2 n1))

/-- Outcome of one `opcode_*_inner` helper: a panic/abort of the
process, a failure return (`0`, nothing pushed), or a success return
(`1`) pushing one value. -/
inductive OpRes where
  | panic
  | fail
  | push (v : Value)

/-- Shared numeric-coercion fallback of the `(_, _)` arms of the
`add`/`subtract`/`multiply`/`divide` helpers: try `to_int` on both,
then `to_bigint`, then `to_float`, feeding the respective domain
operation; fail when all three fall through. -/
def arithFallback (fInt : Int → Int → OpRes) (fBig : Int → Int → OpRes)
    (fFlt : ℚ → ℚ → ℚ) (v1 v2 : Value) : OpRes :=
  match v1.to_int, v2.to_int with
  | some n1, some n2 => fInt n1 n2
  | _, _ =>
    match v1.to_bigint, v2.to_bigint with
    | some n1, some n2 => fBig n1 n2
    | _, _ =>
      match v1.to_float, v2.to_float with
      | some n1, some n2 => .push (.float (fFlt n1 n2))
      | _, _ => .fail

/-- `VM::opcode_add_inner` (lines 86-157).  The source recurses after
promoting an operand; the recursion depth is at most 2, so a fuel
argument of 3 (used by `opcode_add` below) makes the fuel-exhaustion
arm unreachable. -/
def opcode_add_inner : Nat → Value → Value → OpRes
  | 0, _, _ => .panic
  | fuel + 1, v1, v2 =>
    match v1, v2 with
    | .bigint n1, .bigint n2 => .push (.bigint (n1 + n2))
    | .bigint _, .int n2 => opcode_add_inner fuel v1 (int_to_bigint n2)
    | .int n1, .bigint _ => opcode_add_inner fuel (int_to_bigint n1) v2
    | .int n1, .int n2 => .push (add_ints n1 n2)
    | .float n1, .float n2 => .push (.float (n1 + n2))
    | .bigint n1, .float _ =>
      match bigint_to_float n1 with
      | some v => opcode_add_inner fuel v v2
      | none => .panic
    | .float _, .bigint n2 =>
      match bigint_to_float n2 with
      | some v => opcode_add_inner fuel v1 v
      | none => .panic
    | .int n1, .float _ => opcode_add_inner fuel (int_to_float n1) v2
    | .float _, .int n2 => opcode_add_inner fuel v1 (int_to_float n2)
    | _, _ =>
      arithFallback (fun n1 n2 => .push (add_ints n1 n2))
        (fun n1 n2 => .push (.bigint (n1 + n2))) (fun n1 n2 => n1 + n2) v1 v2

/-- `VM::opcode_subtract_inner` (lines 183-254): all result orders are
`n2 - n1` / `n2 - n1` on floats. -/
def opcode_subtract_inner : Nat → Value → Value → OpRes
  | 0, _, _ => .panic
  | fuel + 1, v1, v2 =>
    match v1, v2 with
    | .bigint n1, .bigint n2 => .push (.bigint (n2 - n1))
    | .bigint _, .int n2 => opcode_subtract_inner fuel v1 (int_to_bigint n2)
    | .int n1, .bigint _ => opcode_subtract_inner fuel (int_to_bigint n1) v2
    | .int n1, .int n2 => .push (subtract_ints n1 n2)
    | .float n1, .float n2 => .push (.float (n2 - n1))
    | .bigint n1, .float _ =>
      match bigint_to_float n1 with
      | some v => opcode_subtract_inner fuel v v2
      | none => .panic
    | .float _, .bigint n2 =>
      match bigint_to_float n2 with
      | some v => opcode_subtract_inner fuel v1 v
      | none => .panic
    | .int n1, .float _ => opcode_subtract_inner fuel (int_to_float n1) v2
    | .float _, .int n2 => opcode_subtract_inner fuel v1 (int_to_float n2)
    | _, _ =>
      arithFallback (fun n1 n2 => .push (subtract_ints n1 n2))
        (fun n1 n2 => .push (.bigint (n2 - n1))) (fun n1 n2 => n2 - n1) v1 v2

/-- `VM::opcode_multiply_inner` (lines 281-352). -/
def opcode_multiply_inner : Nat → Value → Value → OpRes
  | 0, _, _ => .panic
  | fuel + 1, v1, v2 =>
    match v1, v2 with
    | .bigint n1, .bigint n2 => .push (.bigint (n1 * n2))
    | .bigint _, .int n2 => opcode_multiply_inner fuel v1 (int_to_bigint n2)
    | .int n1, .bigint _ => opcode_multiply_inner fuel (int_to_bigint n1) v2
    | .int n1, .int n2 => .push (multiply_ints n1 n2)
    | .float n1, .float n2 => .push (.float (n1 * n2))
    | .bigint n1, .float _ =>
      match bigint_to_float n1 with
      | some v => opcode_multiply_inner fuel v v2
      | none => .panic
    | .float _, .bigint n2 =>
      match bigint_to_float n2 with
      | some v => opcode_multiply_inner fuel v1 v
      | none => .panic
    | .int n1, .float _ => opcode_multiply_inner fuel (int_to_float n1) v2
    | .float _, .int n2 => opcode_multiply_inner fuel v1 (int_to_float n2)
    | _, _ =>
      arithFallback (fun n1 n2 => .push (multiply_ints n1 n2))
        (fun n1 n2 => .push (.bigint (n1 * n2))) (fun n1 n2 => n1 * n2) v1 v2

/-- `VM::opcode_divide_inner` (lines 378-449).  `BigInt` division by
zero panics in Rust, both in the `(BigInt, BigInt)` arm and in the
`to_bigint` fallback; `f64` division by zero yields an IEEE infinity,
which the rational model cannot express — that arm is therefore only
faithful for nonzero divisors, and no theorem divides floats. -/
def opcode_divide_inner : Nat → Value → Value → OpRes
  | 0, _, _ => .panic
  | fuel + 1, v1, v2 =>
    match v1, v2 with
    | .bigint n1, .bigint n2 =>
      if n1 = 0 then .panic else .push (.bigint (Int.tdiv n2 n1))
    | .bigint _, .int n2 => opcode_divide_inner fuel v1 (int_to_bigint n2)
    | .int n1, .bigint _ => opcode_divide_inner fuel (int_to_bigint n1) v2
    | .int n1, .int n2 =>
      match divide_ints n1 n2 with
      | some v => .push v
      | none => .panic
    | .float n1, .float n2 => .push (.float (n2 / n1))
    | .bigint n1, .float _ =>
      match bigint_to_float n1 with
      | some v => opcode_divide_inner fuel v v2
      | none => .panic
    | .float _, .bigint n2 =>
      match bigint_to_float n2 with
      | some v => opcode_divide_inner fuel v1 v
      | none => .panic
    | .int n1, .float _ => opcode_divide_inner fuel (int_to_float n1) v2
    | .float _, .int n2 => opcode_divide_inner fuel v1 (int_to_float n2)
    | _, _ =>
      arithFallback
        (fun n1 n2 =>
          match divide_ints n1 n2 with
          | some v => .push v
          | none => .panic)
        (fun n1 n2 => if n1 = 0 then .panic else .push (.bigint (Int.tdiv n2 n1)))
        (fun n1 n2 => n2 / n1) v1 v2

/-- Shared coercion fallback of the `(_, _)` arms of the comparison
helpers `eq`/`gt`/`lt`: try `to_int`, `to_bigint`, `to_float`, then the
stringified comparison via `to_string`/`to_string_2`, pushing `Int` 1/0;
fail when everything falls through.  The comparison functions receive
the operands in popped order `(n1, n2)`; each call site encodes the
source's `n2 OP n1` orientation.  `Value::to_string` aborts the process
on a `String` operand, hence the `panic` arms. -/
def cmpFallback (ci : Int → Int → Bool) (cq : ℚ → ℚ → Bool)
    (cs : String → String → Bool) (v1 v2 : Value) : OpRes :=
  match v1.to_int, v2.to_int with
  | some n1, some n2 => .push (.int (if ci n1 n2 then 1 else 0))
  | _, _ =>
    match v1.to_bigint, v2.to_bigint with
    | some n1, some n2 => .push (.int (if ci n1 n2 then 1 else 0))
    | _, _ =>
      match v1.to_float, v2.to_float with
      | some n1, some n2 => .push (.int (if cq n1 n2 then 1 else 0))
      | _, _ =>
        match v1.to_string_res, v2.to_string_res with
        | .panic, _ => .panic
        | _, .panic => .panic
        | .ok s1, .ok s2 =>
          match to_string_2 (some s1), to_string_2 (some s2) with
          | some t1, some t2 => .push (.int (if cs t1 t2 then 1 else 0))
          | _, _ => .fail
        | _, _ => .fail

/-- `VM::opcode_eq_inner` (lines 476-559). -/
def opcode_eq_inner : Nat → Value → Value → OpRes
  | 0, _, _ => .panic
  | fuel + 1, v1, v2 =>
    match v1, v2 with
    | .bigint n1, .bigint n2 => .push (.int (if n1 = n2 then 1 else 0))
    | .bigint _, .int n2 => opcode_eq_inner fuel v1 (int_to_bigint n2)
    | .int n1, .bigint _ => opcode_eq_inner fuel (int_to_bigint n1) v2
    | .int n1, .int n2 => .push (.int (if n1 = n2 then 1 else 0))
    | .bigint n1, .float _ =>
      match bigint_to_float n1 with
      | some v => opcode_eq_inner fuel v v2
      | none => .panic
    | .float _, .bigint n2 =>
      match bigint_to_float n2 with
      | some v => opcode_eq_inner fuel v1 v
      | none => .panic
    | .int n1, .float _ => opcode_eq_inner fuel (int_to_float n1) v2
    | .float _, .int n2 => opcode_eq_inner fuel v1 (int_to_float n2)
    | .float n1, .float n2 => .push (.int (if n1 = n2 then 1 else 0))
    | _, _ =>
      cmpFallback (fun n1 n2 => n1 == n2) (fun n1 n2 => n1 == n2)
        (fun s1 s2 => s1 == s2) v1 v2

/-- `VM::opcode_gt_inner` (lines 586-669).  Exactly as in the source,
every mixed-variant arm delegates to `opcode_eq_inner` — an equality
test — rather than recursing into the greater-than helper. -/
def opcode_gt_inner : Nat → Value → Value → OpRes
  | 0, _, _ => .panic
  | fuel + 1, v1, v2 =>
    match v1, v2 with
    | .bigint n1, .bigint n2 => .push (.int (if n2 > n1 then 1 else 0))
    | .bigint _, .int n2 => opcode_eq_inner fuel v1 (int_to_bigint n2)
    | .int n1, .bigint _ => opcode_eq_inner fuel (int_to_bigint n1) v2
    | .int n1, .int n2 => .push (.int (if n2 > n1 then 1 else 0))
    | .bigint n1, .float _ =>
      match bigint_to_float n1 with
      | some v => opcode_eq_inner fuel v v2
      | none => .panic
    | .float _, .bigint n2 =>
      match bigint_to_float n2 with
      | some v => opcode_eq_inner fuel v1 v
      | none => .panic
    | .int n1, .float _ => opcode_eq_inner fuel (int_to_float n1) v2
    | .float _, .int n2 => opcode_eq_inner fuel v1 (int_to_float n2)
    | .float n1, .float n2 => .push (.int (if n2 > n1 then 1 else 0))
    | _, _ =>
      cmpFallback (fun n1 n2 => n2 > n1) (fun n1 n2 => n2 > n1)
        (fun s1 s2 => s2 > s1) v1 v2

/-- `VM::opcode_lt_inner` (lines 696-779).  As in the source, every
mixed-variant arm delegates to `opcode_eq_inner`. -/
def opcode_lt_inner : Nat → Value → Value → OpRes
  | 0, _, _ => .panic
  | fuel + 1, v1, v2 =>
    match v1, v2 with
    | .bigint n1, .bigint n2 => .push (.int (if n2 < n1 then 1 else 0))
    | .bigint _, .int n2 => opcode_eq_inner fuel v1 (int_to_bigint n2)
    | .int n1, .bigint _ => opcode_eq_inner fuel (int_to_bigint n1) v2
    | .int n1, .int n2 => .push (.int (if n2 < n1 then 1 else 0))
    | .bigint n1, .float _ =>
      match bigint_to_float n1 with
      | some v => opcode_eq_inner fuel v v2
      | none => .panic
    | .float _, .bigint n2 =>
      match bigint_to_float n2 with
      | some v => opcode_eq_inner fuel v1 v
      | none => .panic
    | .int n1, .float _ => opcode_eq_inner fuel (int_to_float n1) v2
    | .float _, .int n2 => opcode_eq_inner fuel v1 (int_to_float n2)
    | .float n1, .float n2 => .push (.int (if n2 < n1 then 1 else 0))
    | _, _ =>
      cmpFallback (fun n1 n2 => n2 < n1) (fun n1 n2 => n2 < n1)
        (fun s1 s2 => s2 < s1) v1 v2

/-! ## Opcode wrappers (lines 161-178, 258-275, 356-373, 453-470,
563-580, 673-690, 783-800)

Each wrapper checks `self.stack.len() < 2` and, below that depth, prints
an error and returns `0` without touching the stack; otherwise it pops
two values, runs the inner helper, and on an inner failure prints an
error and returns `0` with the operands left popped.  The stack is a
`List Value` with the head as the top; the `len() < 2` test is exactly
the wildcard arm of the head pattern below.  Printing to stderr is not
modelled; the returned code `0` is the failure indicator the dispatch
loop sees. -/

inductive OpOut where
  | panic
  | ret (code : Int) (stack : List Value)

/-- `VM::opcode_add` (lines 161-178). -/
def opcode_add (stack : List Value) : OpOut :=
  match stack with
  | v1 :: v2 :: rest =>
    match opcode_add_inner 3 v1 v2 with
    | .panic => .panic
    | .fail => .ret 0 rest
    | .push v => .ret 1 (v :: rest)
  | _ => .ret 0 stack

/-- `VM::opcode_subtract` (lines 258-275). -/
def opcode_subtract (stack : List Value) : OpOut :=
  match stack with
  | v1 :: v2 :: rest =>
    match opcode_subtract_inner 3 v1 v2 with
    | .panic => .panic
    | .fail => .ret 0 rest
    | .push v => .ret 1 (v :: rest)
  | _ => .ret 0 stack

/-- `VM::opcode_multiply` (lines 356-373). -/
def opcode_multiply (stack : List Value) : OpOut :=
  match stack with
  | v1 :: v2 :: rest =>
    match opcode_multiply_inner 3 v1 v2 with
    | .panic => .panic
    | .fail => .ret 0 rest
    | .push v => .ret 1 (v :: rest)
  | _ => .ret 0 stack

/-- `VM::opcode_divide` (lines 453-470). -/
def opcode_divide (stack : List Value) : OpOut :=
  match stack with
  | v1 :: v2 :: rest =>
    match opcode_divide_inner 3 v1 v2 with
    | .panic => .panic
    | .fail => .ret 0 rest
    | .push v => .ret 1 (v :: rest)
  | _ => .ret 0 stack

/-- `VM::opcode_eq` (lines 563-580). -/
def opcode_eq (stack : List Value) : OpOut :=
  match stack with
  | v1 :: v2 :: rest =>
    match opcode_eq_inner 3 v1 v2 with
    | .panic => .panic
    | .fail => .ret 0 rest
    | .push v => .ret 1 (v :: rest)
  | _ => .ret 0 stack

/-- `VM::opcode_gt` (lines 673-690). -/
def opcode_gt (stack : List Value) : OpOut :=
  match stack with
  | v1 :: v2 :: rest =>
    match opcode_gt_inner 3 v1 v2 with
    | .panic => .panic
    | .fail => .ret 0 rest
    | .push v => .ret 1 (v :: rest)
  | _ => .ret 0 stack

/-- `VM::opcode_lt` (lines 783-800). -/
def opcode_lt (stack : List Value) : OpOut :=
  match stack with
  | v1 :: v2 :: rest =>
    match opcode_lt_inner 3 v1 v2 with
    | .panic => .panic
    | .fail => .ret 0 rest
    | .push v => .ret 1 (v :: rest)
  | _ => .ret 0 stack

/-! ## Theorems: arithmetic and comparison claims -/

/-- C10: for every binary arithmetic or comparison opcode (Add,
Subtract, Multiply, Divide, Eq, Gt, Lt), if the value stack holds fewer
than two elements, the opcode returns the failure indicator `0` and the
stack is left exactly as it was. -/
theorem arith_opcodes_underflow_safe (stack : List Value)
    (h : stack.length < 2) :
    opcode_add stack = .ret 0 stack ∧ opcode_subtract stack = .ret 0 stack ∧
    opcode_multiply stack = .ret 0 stack ∧ opcode_divide stack = .ret 0 stack ∧
    opcode_eq stack = .ret 0 stack ∧ opcode_gt stack = .ret 0 stack ∧
    opcode_lt stack = .ret 0 stack := by
  match stack with
  | [] => exact ⟨rfl, rfl, rfl, rfl, rfl, rfl, rfl⟩
  | [v] => exact ⟨rfl, rfl, rfl, rfl, rfl, rfl, rfl⟩
  | a :: b :: t => simp only [List.length_cons] at h; omega

/-- Witness for `arith_opcodes_underflow_safe` at the one-element stack
`[Int 7]`. -/
theorem arith_opcodes_underflow_safe_witness :
    opcode_add [Value.int 7] = .ret 0 [Value.int 7] :=
  (arith_opcodes_underflow_safe [Value.int 7] (by simp)).1

/-- C4: Add, Subtract and Multiply on two `Int` operands whose exact
mathematical result does not fit in `i32` push a `BigInt` equal to the
exact result; in particular `push Int(2147483647); push Int(1); ADD`
leaves exactly the one value `BigInt(2147483648)`.  (The stack head is
the top: `a` was pushed after `b`; subtraction computes `b - a`.) -/
theorem int_overflow_promotes_to_bigint (a b : Int) (rest : List Value)
    (_ha : fitsI32 a) (_hb : fitsI32 b) :
    (¬ fitsI32 (a + b) →
      opcode_add (.int a :: .int b :: rest) = .ret 1 (.bigint (a + b) :: rest)) ∧
    (¬ fitsI32 (b - a) →
      opcode_subtract (.int a :: .int b :: rest) = .ret 1 (.bigint (b - a) :: rest)) ∧
    (¬ fitsI32 (a * b) →
      opcode_multiply (.int a :: .int b :: rest) = .ret 1 (.bigint (a * b) :: rest)) ∧
    opcode_add [.int 1, .int 2147483647] = .ret 1 [.bigint 2147483648] := by
  refine ⟨fun h => ?_, fun h => ?_, fun h => ?_, rfl⟩
  · simp [opcode_add, opcode_add_inner, add_ints, if_neg h]
  · simp [opcode_subtract, opcode_subtract_inner, subtract_ints, if_neg h]
  · simp [opcode_multiply, opcode_multiply_inner, multiply_ints, if_neg h]

/-- Witness for `int_overflow_promotes_to_bigint` at
`a = 1, b = 2147483647` (all three products of the hypotheses checked at
concrete inputs through the first conjunct). -/
theorem int_overflow_promotes_to_bigint_witness :
    opcode_add [Value.int 1, Value.int 2147483647]
      = .ret 1 [Value.bigint 2147483648] :=
  (int_overflow_promotes_to_bigint 1 2147483647 [] (by decide) (by decide)).1
    (by decide)

/-- C3 (code evaluated at the failing input): with both operands `Int`
and a zero divisor, `checked_div` yields `None` and the fallback
`BigInt::from(n2) / n1` divides by zero, which panics the process —
there is no numeric-error report and the VM does not survive. -/
theorem opcode_divide_zero_divisor_panics :
    divide_ints 0 1 = none ∧
    opcode_divide [Value.int 0, Value.int 1] = .panic :=
  ⟨rfl, rfl⟩

/-- C1 (code evaluated at the failing inputs): for Gt on earlier-pushed
`Int 3` and later-pushed `BigInt 2` the source's mixed-variant arm runs
`opcode_eq_inner`, pushing `Int 0` (the equality result) where the claim
expects `Int 1` (since 3 > 2); symmetrically for Lt with earlier `Int 2`
and later `BigInt 3`.  The same-variant case `Int`/`Int` pushes `Int 1`
as the claim describes, exhibiting the divergence. -/
theorem gt_lt_mixed_variants_compute_equality :
    opcode_gt [Value.bigint 2, Value.int 3] = .ret 1 [Value.int 0] ∧
    opcode_lt [Value.bigint 3, Value.int 2] = .ret 1 [Value.int 0] ∧
    opcode_gt [Value.int 2, Value.int 3] = .ret 1 [Value.int 1] ∧
    opcode_lt [Value.int 3, Value.int 2] = .ret 1 [Value.int 1] :=
  ⟨rfl, rfl, rfl, rfl⟩

/-- C2 (code evaluated at the failing inputs): `to_bool` on `BigInt` is
inverted — `BigInt(0)` is truthy and nonzero `BigInt`s are falsy. -/
theorem to_bool_bigint_inverted :
    Value.to_bool (.bigint 0) = true ∧
    Value.to_bool (.bigint 1) = false ∧
    Value.to_bool (.bigint (-5)) = false :=
  ⟨rfl, rfl, rfl⟩

/-- C5 (code evaluated at the failing input): a nonnegative `BigInt`
operand against a `Float` is converted and resolves in the float domain
(`Float(1.5) + BigInt(10)` pushes `Float(11.5)`), but a negative
`BigInt` panics the process in `bigint_to_float`'s
`to_u64().unwrap()`. -/
theorem bigint_float_negative_operand_panics :
    opcode_add [Value.bigint 10, Value.float (3 / 2)]
      = .ret 1 [Value.float (23 / 2)] ∧
    bigint_to_float (-10) = none ∧
    opcode_add [Value.bigint (-10), Value.float (3 / 2)] = .panic := by
  refine ⟨?_, rfl, rfl⟩
  norm_num [opcode_add, opcode_add_inner, bigint_to_float, u64Max]

/-! ## Chunk point attribution (src/chunk.rs, `Chunk`)

Only the fields touched by the point-attribution functions are
modelled; the instruction bytes are `Nat`s and the `points` sidecar is
a list of (line, column) pairs, exactly parallel to the source's
`Vec<u8>` / `Vec<(u32, u32)>`. -/

structure Chunk where
  data : List Nat
  points : List (Nat × Nat)

/-- `Chunk::set_next_point` (src/chunk.rs lines 838-853): `prev` is the
last entry of `points` before the call (`(0, 0)` when there is none);
the `while` loop pushes `prev` until `points` is as long as `data`
(i.e. appends `data.len() - points.len()` copies, none when `points` is
already at least as long); finally `(line, col)` is inserted at index
`data.len()`.  `Vec::insert` never panics here because after the loop
`points.len() ≥ data.len()`; `List.insertIdx` agrees with it on all
indices ≤ the length. -/
def Chunk.set_next_point (c : Chunk) (line col : Nat) : Chunk :=
  { c with
    points :=
      List.insertIdx c.data.length (line, col)
        (c.points ++ List.replicate (c.data.length - c.points.length)
          (c.points.getLast?.getD (0, 0))) }

/-- `Chunk::get_point` (src/chunk.rs lines 856-863): the source matches
`Some((0, 0)) => None`, `Some(_) => Some(point)`, `None => None`; the
`if` below is that same case split. -/
def Chunk.get_point (c : Chunk) (i : Nat) : Option (Nat × Nat) :=
  match c.points[i]? with
  | some p => if p = (0, 0) then none else some p
  | none => none

/-- C6 counterexample: on a chunk with one instruction byte and no
point data, `set_next_point(5, 1)` does not attach `(5, 1)` to the tail
byte (index 0): the new point lands at index 1 (= `data.len()`), the
index of the next byte to be added, and index 0 is back-filled with the
unattributed marker `(0, 0)`, so `get_point(0)` is `none`, not
`some (5, 1)` as the claim requires. -/
theorem set_next_point_not_tail_byte :
    (Chunk.set_next_point ⟨[17], []⟩ 5 1).get_point 0 ≠ some (5, 1) := by
  decide

/-- C6 as amended: when the point table is no longer than the
instruction data (the compile-time call pattern) and `(line, col)` is
not the unattributed marker `(0, 0)`, `set_next_point(line, col)`
attaches `(line, col)` to index `data.len()` — the next byte to be
added — leaves all previously attributed indices unchanged, and
back-fills every index from the old `points` length up to
`data.len() - 1` with the last previously recorded point (`(0, 0)`,
read back as `none`, when no point was ever set). -/
theorem set_next_point_next_byte (c : Chunk) (line col : Nat)
    (hlen : c.points.length ≤ c.data.length) (hnz : (line, col) ≠ (0, 0)) :
    (c.set_next_point line col).get_point c.data.length = some (line, col) ∧
    (∀ i, i < c.points.length →
       (c.set_next_point line col).points[i]? = c.points[i]?) ∧
    (∀ i, c.points.length ≤ i → i < c.data.length →
       (c.set_next_point line col).points[i]?
         = some (c.points.getLast?.getD (0, 0))) := by
  set fl := c.points ++ List.replicate (c.data.length - c.points.length)
      (c.points.getLast?.getD (0, 0)) with hfl2
  have hfl : fl.length = c.data.length := by
    rw [hfl2]; simp only [List.length_append, List.length_replicate]; omega
  have hpts : (c.set_next_point line col).points = fl ++ [(line, col)] := by
    simp only [Chunk.set_next_point, ← hfl2]
    rw [← hfl, List.insertIdx_length_self]
  refine ⟨?_, ?_, ?_⟩
  · simp only [Chunk.get_point, hpts, ← hfl, List.getElem?_concat_length]
    rw [if_neg hnz]
  · intro i hi
    rw [hpts, List.getElem?_append_left (by omega), hfl2,
      List.getElem?_append_left hi]
  · intro i hi1 hi2
    rw [hpts, List.getElem?_append_left (by omega), hfl2,
      List.getElem?_append_right hi1, List.getElem?_replicate_of_lt (by omega)]

/-- Witness for `set_next_point_next_byte`: a chunk with two bytes and
one existing point; the fresh point is readable at index 2. -/
theorem set_next_point_next_byte_witness :
    (Chunk.set_next_point ⟨[17, 18], [(1, 1)]⟩ 5 1).get_point 2
      = some (5, 1) :=
  (set_next_point_next_byte ⟨[17, 18], [(1, 1)]⟩ 5 1 (by decide) (by decide)).1

/-! ## String escaping (src/chunk.rs, `escape_string`, lines 82-130)

The source walks the characters with a `next_escaped` flag: a bare
backslash sets the flag and emits nothing; under the flag, `\\` emits a
single backslash, `\"` emits `\\"`, and `\c` emits `\c`; without the
flag, newline/CR/tab/quote are escaped and other characters pass
through.  A trailing backslash (flag still set at the end) emits
nothing. -/

def escapeChars : Bool → List Char → List Char
  | _, [] => []
  | true, c :: cs =>
    if c = '\\' then '\\' :: escapeChars false cs
    else if c = '"' then '\\' :: '\\' :: '"' :: escapeChars false cs
    else '\\' :: c :: escapeChars false cs
  | false, c :: cs =>
    if c = '\\' then escapeChars true cs
    else if c = '\n' then '\\' :: 'n' :: escapeChars false cs
    else if c = '\r' then '\\' :: 'r' :: escapeChars false cs
    else if c = '\t' then '\\' :: 't' :: escapeChars false cs
    else if c = '"' then '\\' :: '"' :: escapeChars false cs
    else c :: escapeChars false cs

/-- `escape_string` (src/chunk.rs lines 82-130): the walk starts with
`next_escaped = false`. -/
def escape_string (s : String) : String := ⟨escapeChars false s.data⟩

/-- `StringTriple` (src/chunk.rs lines 74-79) without the cached regex,
which no claim observes. -/
structure StringTriple where
  string : String
  escaped_string : String

/-- `StringTriple::new` (src/chunk.rs lines 133-140). -/
def StringTriple.new (s : String) : StringTriple :=
  ⟨s, escape_string s⟩

/-- The canonical escape exactly as the claim words it: every backslash
is doubled, newline becomes `\n`, CR becomes `\r`, tab becomes `\t`,
double-quote becomes `\"`, and all other characters pass through
unchanged.  (This is the claim's definition, for comparison with the
source's `escape_string`.) -/
def canonicalEscapeSpec (s : String) : String :=
  ⟨(s.data.map (fun c =>
      if c = '\\' then ['\\', '\\']
      else if c = '\n' then ['\\', 'n']
      else if c = '\r' then ['\\', 'r']
      else if c = '\t' then ['\\', 't']
      else if c = '"' then ['\\', '"']
      else [c])).flatten⟩

/-- C7 counterexample: for the one-character raw string `\`, the claim's
canonical escape doubles the backslash, but the source's
`StringTriple::new` drops it (the escape walk ends with the
`next_escaped` flag set and emits nothing). -/
theorem escape_string_not_backslash_doubling :
    (StringTriple.new "\\").escaped_string ≠ canonicalEscapeSpec "\\" := by
  decide

/-- The escape behaviour the source actually implements, written as a
two-character-lookahead recursion: newline/CR/tab/quote are escaped as
`\n`/`\r`/`\t`/`\"` and other characters pass through, except that a
backslash is not itself doubled — it marks the character after it:
backslash-backslash yields a single backslash, backslash-quote yields
backslash-backslash-quote, backslash-`c` yields backslash-`c`, and a
trailing backslash is dropped. -/
def amendedEscape : List Char → List Char
  | [] => []
  | c :: cs =>
    if c = '\\' then
      match cs with
      | [] => []
      | d :: ds =>
        if d = '\\' then '\\' :: amendedEscape ds
        else if d = '"' then '\\' :: '\\' :: '"' :: amendedEscape ds
        else '\\' :: d :: amendedEscape ds
    else if c = '\n' then '\\' :: 'n' :: amendedEscape cs
    else if c = '\r' then '\\' :: 'r' :: amendedEscape cs
    else if c = '\t' then '\\' :: 't' :: amendedEscape cs
    else if c = '"' then '\\' :: '"' :: amendedEscape cs
    else c :: amendedEscape cs

theorem escapeChars_eq_amended_aux (n : Nat) :
    ∀ cs : List Char, cs.length ≤ n → escapeChars false cs = amendedEscape cs := by
  induction n with
  | zero =>
    intro cs h
    cases cs with
    | nil => rfl
    | cons c cs' => simp at h
  | succ n ih =>
    intro cs h
    cases cs with
    | nil => rfl
    | cons c cs' =>
      simp only [List.length_cons] at h
      rw [amendedEscape.eq_def]
      by_cases hc : c = '\\'
      · subst hc
        cases cs' with
        | nil => simp [escapeChars]
        | cons d ds =>
          simp only [List.length_cons] at h
          by_cases hd : d = '\\'
          · subst hd
            simp [escapeChars, ih ds (by omega)]
          · by_cases hq : d = '"'
            · subst hq
              simp [escapeChars, ih ds (by omega)]
            · simp [escapeChars, hd, hq, ih ds (by omega)]
      · have ihcs := ih cs' (by omega)
        by_cases h1 : c = '\n'
        · subst h1; simp [escapeChars, ihcs]
        · by_cases h2 : c = '\r'
          · subst h2; simp [escapeChars, ihcs]
          · by_cases h3 : c = '\t'
            · subst h3; simp [escapeChars, ihcs]
            · by_cases h4 : c = '"'
              · subst h4; simp [escapeChars, ihcs]
              · simp [escapeChars, hc, h1, h2, h3, h4, ihcs]

/-- C7 as amended: the escaped text built by `StringTriple::new` is the
result of the actual escape walk (`amendedEscape`) applied to the raw
text: newline/CR/tab/quote escaped, other characters unchanged, and a
backslash never doubled but passed through as an escape marker for the
next character (trailing backslash dropped). -/
theorem stringtriple_new_escaped_amended (s : String) :
    StringTriple.new s = ⟨s, ⟨amendedEscape s.data⟩⟩ := by
  unfold StringTriple.new escape_string
  rw [escapeChars_eq_amended_aux s.data.length s.data le_rfl]

/-! ## Deep clone (src/chunk.rs, `Value::value_clone`, lines 1409-1478)

`value_clone` rebuilds List/Hash/Set containers recursively, rebuilds a
Generator with a freshly copied local-variable stack whose *elements*
are shallow `Rc` clones, rebuilds the Keys/Values/Each generator cells
with the underlying hash still shared, and returns `self.clone()` — a
shared reference — for everything else (scalars, strings, commands,
anonymous/named/core functions, command generators, OS handles,
datetimes, IP objects, multi-generators).

Allocation is modelled by a counter: a constructor receiving the
counter value as its location is a fresh `Rc`; keeping the old location
is `Rc::clone`.  (The Rust code allocates list elements before the
container; the relative order of fresh locations is irrelevant to the
model — only freshness is.) -/

mutual

def valueClone : Value → Nat → Value × Nat
  | .list _ es, ctr =>
    let r := cloneListVals es (ctr + 1)
    (.list ctr r.1, r.2)
  | .hash _ es, ctr =>
    let r := cloneEntries es (ctr + 1)
    (.hash ctr r.1, r.2)
  | .setv _ es, ctr =>
    let r := cloneEntries es (ctr + 1)
    (.setv ctr r.1, r.2)
  | .gen _ i cid ls as, ctr => (.gen ctr i cid ls as, ctr + 1)
  | .keysGen _ i h, ctr => (.keysGen ctr i h, ctr + 1)
  | .valuesGen _ i h, ctr => (.valuesGen ctr i h, ctr + 1)
  | .eachGen _ i h, ctr => (.eachGen ctr i h, ctr + 1)
  | v, ctr => (v, ctr)

def cloneListVals : List Value → Nat → List Value × Nat
  | [], ctr => ([], ctr)
  | v :: vs, ctr =>
    let r1 := valueClone v ctr
    let r2 := cloneListVals vs r1.2
    (r1.1 :: r2.1, r2.2)

def cloneEntries : List (String × Value) → Nat → List (String × Value) × Nat
  | [], ctr => ([], ctr)
  | (k, v) :: vs, ctr =>
    let r1 := valueClone v ctr
    let r2 := cloneEntries vs r1.2
    ((k, r1.1) :: r2.1, r2.2)

end

mutual

/-- Structural value content with all storage identities forgotten:
two values are "equal under value equality" when their `eraseLocs`
images coincide. -/
def eraseLocs : Value → Value
  | .list _ es => .list 0 (eraseLocsList es)
  | .hash _ es => .hash 0 (eraseLocsEntries es)
  | .setv _ es => .setv 0 (eraseLocsEntries es)
  | .anonFn c _ ls => .anonFn c 0 (eraseLocsList ls)
  | .gen _ i cid ls as => .gen 0 i cid (eraseLocsList ls) (eraseLocsList as)
  | .keysGen _ i h => .keysGen 0 i (eraseLocs h)
  | .valuesGen _ i h => .valuesGen 0 i (eraseLocs h)
  | .eachGen _ i h => .eachGen 0 i (eraseLocs h)
  | .commandGen _ => .commandGen 0
  | .fileReader _ => .fileReader 0
  | .fileWriter _ => .fileWriter 0
  | .dirHandle _ => .dirHandle 0
  | .ipset _ => .ipset 0
  | .multiGen _ gs => .multiGen 0 (eraseLocsList gs)
  | v => v

def eraseLocsList : List Value → List Value
  | [] => []
  | v :: vs => eraseLocs v :: eraseLocsList vs

def eraseLocsEntries : List (String × Value) → List (String × Value)
  | [] => []
  | (k, v) :: vs => (k, eraseLocs v) :: eraseLocsEntries vs

end

mutual

/-- Every storage location occurring anywhere in a value.  (Chunk
identities are a separate namespace: chunks are immutable at runtime
and never freshly allocated by `value_clone`.) -/
def allLocs : Value → List Nat
  | .list l es => l :: allLocsList es
  | .hash l es => l :: allLocsEntries es
  | .setv l es => l :: allLocsEntries es
  | .anonFn _ lvs ls => lvs :: allLocsList ls
  | .gen lvs _ _ ls as => lvs :: (allLocsList ls ++ allLocsList as)
  | .keysGen l _ h => l :: allLocs h
  | .valuesGen l _ h => l :: allLocs h
  | .eachGen l _ h => l :: allLocs h
  | .commandGen l => [l]
  | .fileReader l => [l]
  | .fileWriter l => [l]
  | .dirHandle l => [l]
  | .ipset l => [l]
  | .multiGen l gs => l :: allLocsList gs
  | _ => []

def allLocsList : List Value → List Nat
  | [] => []
  | v :: vs => allLocs v ++ allLocsList vs

def allLocsEntries : List (String × Value) → List Nat
  | [] => []
  | (_, v) :: vs => allLocs v ++ allLocsEntries vs

end

mutual

/-- The list/hash/set storage locations reachable through list/hash/set
nesting alone (the aggregate spine); aggregates hidden behind other
variants — an anonymous function's captured locals, a generator's local
variables, a multi-generator's children — are not on the spine. -/
def aggLocsSpine : Value → List Nat
  | .list l es => l :: aggLocsSpineList es
  | .hash l es => l :: aggLocsSpineEntries es
  | .setv l es => l :: aggLocsSpineEntries es
  | _ => []

def aggLocsSpineList : List Value → List Nat
  | [] => []
  | v :: vs => aggLocsSpine v ++ aggLocsSpineList vs

def aggLocsSpineEntries : List (String × Value) → List Nat
  | [] => []
  | (_, v) :: vs => aggLocsSpine v ++ aggLocsSpineEntries vs

end

mutual

/-- Heap mutation of the aggregate storage at location `l`: apply `fl`
to the contents of every list cell with location `l`, `fh` to every
hash cell with location `l`, `fs` to every set cell with location `l`,
wherever the cell is reachable — shared locations are one storage, so
all occurrences change together. -/
def mutateAt (l : Nat) (fl : List Value → List Value)
    (fh fs : List (String × Value) → List (String × Value)) :
    Value → Value
  | .list lc es =>
    let es2 := mutateAtList l fl fh fs es
    if lc = l then .list lc (fl es2) else .list lc es2
  | .hash lc es =>
    let es2 := mutateAtEntries l fl fh fs es
    if lc = l then .hash lc (fh es2) else .hash lc es2
  | .setv lc es =>
    let es2 := mutateAtEntries l fl fh fs es
    if lc = l then .setv lc (fs es2) else .setv lc es2
  | .anonFn c lvs ls => .anonFn c lvs (mutateAtList l fl fh fs ls)
  | .gen lvs i cid ls as =>
    .gen lvs i cid (mutateAtList l fl fh fs ls) (mutateAtList l fl fh fs as)
  | .keysGen lc i h => .keysGen lc i (mutateAt l fl fh fs h)
  | .valuesGen lc i h => .valuesGen lc i (mutateAt l fl fh fs h)
  | .eachGen lc i h => .eachGen lc i (mutateAt l fl fh fs h)
  | .multiGen lc gs => .multiGen lc (mutateAtList l fl fh fs gs)
  | v => v

def mutateAtList (l : Nat) (fl : List Value → List Value)
    (fh fs : List (String × Value) → List (String × Value)) :
    List Value → List Value
  | [] => []
  | v :: vs => mutateAt l fl fh fs v :: mutateAtList l fl fh fs vs

def mutateAtEntries (l : Nat) (fl : List Value → List Value)
    (fh fs : List (String × Value) → List (String × Value)) :
    List (String × Value) → List (String × Value)
  | [] => []
  | (k, v) :: vs => (k, mutateAt l fl fh fs v) :: mutateAtEntries l fl fh fs vs

end

mutual

theorem valueClone_ctr_le : ∀ (v : Value) (c : Nat), c ≤ (valueClone v c).2
  | .null, _ => le_rfl
  | .bool _, _ => le_rfl
  | .int _, _ => le_rfl
  | .bigint _, _ => le_rfl
  | .float _, _ => le_rfl
  | .str _ _, _ => le_rfl
  | .command _ _, _ => le_rfl
  | .commandUncaptured _, _ => le_rfl
  | .list _ es, c => by
    have h := cloneListVals_ctr_le es (c + 1)
    simp only [valueClone]; omega
  | .hash _ es, c => by
    have h := cloneEntries_ctr_le es (c + 1)
    simp only [valueClone]; omega
  | .setv _ es, c => by
    have h := cloneEntries_ctr_le es (c + 1)
    simp only [valueClone]; omega
  | .anonFn _ _ _, _ => le_rfl
  | .coreFn _, _ => le_rfl
  | .namedFn _, _ => le_rfl
  | .gen _ _ _ _ _, c => by simp only [valueClone]; omega
  | .commandGen _, _ => le_rfl
  | .keysGen _ _ _, c => by simp only [valueClone]; omega
  | .valuesGen _ _ _, c => by simp only [valueClone]; omega
  | .eachGen _ _ _, c => by simp only [valueClone]; omega
  | .fileReader _, _ => le_rfl
  | .fileWriter _, _ => le_rfl
  | .dirHandle _, _ => le_rfl
  | .dateTimeNT _, _ => le_rfl
  | .dateTimeOT _, _ => le_rfl
  | .ipv4 _ _, _ => le_rfl
  | .ipv6 _ _, _ => le_rfl
  | .ipv4range _ _, _ => le_rfl
  | .ipv6range _ _, _ => le_rfl
  | .ipset _, _ => le_rfl
  | .multiGen _ _, _ => le_rfl

theorem cloneListVals_ctr_le :
    ∀ (es : List Value) (c : Nat), c ≤ (cloneListVals es c).2
  | [], _ => le_rfl
  | v :: vs, c => by
    have h1 := valueClone_ctr_le v c
    have h2 := cloneListVals_ctr_le vs (valueClone v c).2
    simp only [cloneListVals]; omega

theorem cloneEntries_ctr_le :
    ∀ (es : List (String × Value)) (c : Nat), c ≤ (cloneEntries es c).2
  | [], _ => le_rfl
  | (_, v) :: vs, c => by
    have h1 := valueClone_ctr_le v c
    have h2 := cloneEntries_ctr_le vs (valueClone v c).2
    simp only [cloneEntries]; omega

end

mutual

theorem valueClone_erase : ∀ (v : Value) (c : Nat),
    eraseLocs (valueClone v c).1 = eraseLocs v
  | .null, _ => rfl
  | .bool _, _ => rfl
  | .int _, _ => rfl
  | .bigint _, _ => rfl
  | .float _, _ => rfl
  | .str _ _, _ => rfl
  | .command _ _, _ => rfl
  | .commandUncaptured _, _ => rfl
  | .list _ es, c => by
    simp only [valueClone, eraseLocs, cloneListVals_erase es (c + 1)]
  | .hash _ es, c => by
    simp only [valueClone, eraseLocs, cloneEntries_erase es (c + 1)]
  | .setv _ es, c => by
    simp only [valueClone, eraseLocs, cloneEntries_erase es (c + 1)]
  | .anonFn _ _ _, _ => rfl
  | .coreFn _, _ => rfl
  | .namedFn _, _ => rfl
  | .gen _ _ _ _ _, _ => rfl
  | .commandGen _, _ => rfl
  | .keysGen _ _ _, _ => rfl
  | .valuesGen _ _ _, _ => rfl
  | .eachGen _ _ _, _ => rfl
  | .fileReader _, _ => rfl
  | .fileWriter _, _ => rfl
  | .dirHandle _, _ => rfl
  | .dateTimeNT _, _ => rfl
  | .dateTimeOT _, _ => rfl
  | .ipv4 _ _, _ => rfl
  | .ipv6 _ _, _ => rfl
  | .ipv4range _ _, _ => rfl
  | .ipv6range _ _, _ => rfl
  | .ipset _, _ => rfl
  | .multiGen _ _, _ => rfl

theorem cloneListVals_erase : ∀ (es : List Value) (c : Nat),
    eraseLocsList (cloneListVals es c).1 = eraseLocsList es
  | [], _ => rfl
  | v :: vs, c => by
    simp only [cloneListVals, eraseLocsList]
    rw [valueClone_erase v c, cloneListVals_erase vs (valueClone v c).2]

theorem cloneEntries_erase : ∀ (es : List (String × Value)) (c : Nat),
    eraseLocsEntries (cloneEntries es c).1 = eraseLocsEntries es
  | [], _ => rfl
  | (k, v) :: vs, c => by
    simp only [cloneEntries, eraseLocsEntries]
    rw [valueClone_erase v c, cloneEntries_erase vs (valueClone v c).2]

end

mutual

theorem valueClone_spine_fresh : ∀ (v : Value) (c l : Nat),
    l ∈ aggLocsSpine (valueClone v c).1 → c ≤ l
  | .null, c, l => by intro hl; simp [valueClone, aggLocsSpine] at hl
  | .bool _, c, l => by intro hl; simp [valueClone, aggLocsSpine] at hl
  | .int _, c, l => by intro hl; simp [valueClone, aggLocsSpine] at hl
  | .bigint _, c, l => by intro hl; simp [valueClone, aggLocsSpine] at hl
  | .float _, c, l => by intro hl; simp [valueClone, aggLocsSpine] at hl
  | .str _ _, c, l => by intro hl; simp [valueClone, aggLocsSpine] at hl
  | .command _ _, c, l => by intro hl; simp [valueClone, aggLocsSpine] at hl
  | .commandUncaptured _, c, l => by
    intro hl; simp [valueClone, aggLocsSpine] at hl
  | .list _ es, c, l => by
    intro hl
    simp only [valueClone, aggLocsSpine, List.mem_cons] at hl
    rcases hl with rfl | hl
    · exact le_rfl
    · exact le_trans (Nat.le_succ c)
        (cloneListVals_spine_fresh es (c + 1) l hl)
  | .hash _ es, c, l => by
    intro hl
    simp only [valueClone, aggLocsSpine, List.mem_cons] at hl
    rcases hl with rfl | hl
    · exact le_rfl
    · exact le_trans (Nat.le_succ c)
        (cloneEntries_spine_fresh es (c + 1) l hl)
  | .setv _ es, c, l => by
    intro hl
    simp only [valueClone, aggLocsSpine, List.mem_cons] at hl
    rcases hl with rfl | hl
    · exact le_rfl
    · exact le_trans (Nat.le_succ c)
        (cloneEntries_spine_fresh es (c + 1) l hl)
  | .anonFn _ _ _, c, l => by intro hl; simp [valueClone, aggLocsSpine] at hl
  | .coreFn _, c, l => by intro hl; simp [valueClone, aggLocsSpine] at hl
  | .namedFn _, c, l => by intro hl; simp [valueClone, aggLocsSpine] at hl
  | .gen _ _ _ _ _, c, l => by
    intro hl; simp [valueClone, aggLocsSpine] at hl
  | .commandGen _, c, l => by intro hl; simp [valueClone, aggLocsSpine] at hl
  | .keysGen _ _ _, c, l => by intro hl; simp [valueClone, aggLocsSpine] at hl
  | .valuesGen _ _ _, c, l => by
    intro hl; simp [valueClone, aggLocsSpine] at hl
  | .eachGen _ _ _, c, l => by
    intro hl; simp [valueClone, aggLocsSpine] at hl
  | .fileReader _, c, l => by intro hl; simp [valueClone, aggLocsSpine] at hl
  | .fileWriter _, c, l => by intro hl; simp [valueClone, aggLocsSpine] at hl
  | .dirHandle _, c, l => by intro hl; simp [valueClone, aggLocsSpine] at hl
  | .dateTimeNT _, c, l => by intro hl; simp [valueClone, aggLocsSpine] at hl
  | .dateTimeOT _, c, l => by intro hl; simp [valueClone, aggLocsSpine] at hl
  | .ipv4 _ _, c, l => by intro hl; simp [valueClone, aggLocsSpine] at hl
  | .ipv6 _ _, c, l => by intro hl; simp [valueClone, aggLocsSpine] at hl
  | .ipv4range _ _, c, l => by intro hl; simp [valueClone, aggLocsSpine] at hl
  | .ipv6range _ _, c, l => by intro hl; simp [valueClone, aggLocsSpine] at hl
  | .ipset _, c, l => by intro hl; simp [valueClone, aggLocsSpine] at hl
  | .multiGen _ _, c, l => by intro hl; simp [valueClone, aggLocsSpine] at hl

theorem cloneListVals_spine_fresh : ∀ (es : List Value) (c l : Nat),
    l ∈ aggLocsSpineList (cloneListVals es c).1 → c ≤ l
  | [], c, l => by intro hl; simp [cloneListVals, aggLocsSpineList] at hl
  | v :: vs, c, l => by
    intro hl
    simp only [cloneListVals, aggLocsSpineList, List.mem_append] at hl
    rcases hl with hl | hl
    · exact valueClone_spine_fresh v c l hl
    · exact le_trans (valueClone_ctr_le v c)
        (cloneListVals_spine_fresh vs (valueClone v c).2 l hl)

theorem cloneEntries_spine_fresh : ∀ (es : List (String × Value)) (c l : Nat),
    l ∈ aggLocsSpineEntries (cloneEntries es c).1 → c ≤ l
  | [], c, l => by intro hl; simp [cloneEntries, aggLocsSpineEntries] at hl
  | (_, v) :: vs, c, l => by
    intro hl
    simp only [cloneEntries, aggLocsSpineEntries, List.mem_append] at hl
    rcases hl with hl | hl
    · exact valueClone_spine_fresh v c l hl
    · exact le_trans (valueClone_ctr_le v c)
        (cloneEntries_spine_fresh vs (valueClone v c).2 l hl)

end

mutual

theorem mutateAt_not_mem (l : Nat) (fl : List Value → List Value)
    (fh fs : List (String × Value) → List (String × Value)) :
    ∀ v : Value, l ∉ allLocs v → mutateAt l fl fh fs v = v
  | .null, _ => rfl
  | .bool _, _ => rfl
  | .int _, _ => rfl
  | .bigint _, _ => rfl
  | .float _, _ => rfl
  | .str _ _, _ => rfl
  | .command _ _, _ => rfl
  | .commandUncaptured _, _ => rfl
  | .list lc es, hnm => by
    simp only [allLocs, List.mem_cons, not_or] at hnm
    simp only [mutateAt]
    rw [mutateAtList_not_mem l fl fh fs es hnm.2, if_neg (Ne.symm hnm.1)]
  | .hash lc es, hnm => by
    simp only [allLocs, List.mem_cons, not_or] at hnm
    simp only [mutateAt]
    rw [mutateAtEntries_not_mem l fl fh fs es hnm.2, if_neg (Ne.symm hnm.1)]
  | .setv lc es, hnm => by
    simp only [allLocs, List.mem_cons, not_or] at hnm
    simp only [mutateAt]
    rw [mutateAtEntries_not_mem l fl fh fs es hnm.2, if_neg (Ne.symm hnm.1)]
  | .anonFn cid lvs ls, hnm => by
    simp only [allLocs, List.mem_cons, not_or] at hnm
    simp only [mutateAt]
    rw [mutateAtList_not_mem l fl fh fs ls hnm.2]
  | .coreFn _, _ => rfl
  | .namedFn _, _ => rfl
  | .gen lvs i cid ls as, hnm => by
    simp only [allLocs, List.mem_cons, List.mem_append, not_or] at hnm
    simp only [mutateAt]
    rw [mutateAtList_not_mem l fl fh fs ls hnm.2.1,
      mutateAtList_not_mem l fl fh fs as hnm.2.2]
  | .commandGen _, _ => rfl
  | .keysGen lc i hv, hnm => by
    simp only [allLocs, List.mem_cons, not_or] at hnm
    simp only [mutateAt]
    rw [mutateAt_not_mem l fl fh fs hv hnm.2]
  | .valuesGen lc i hv, hnm => by
    simp only [allLocs, List.mem_cons, not_or] at hnm
    simp only [mutateAt]
    rw [mutateAt_not_mem l fl fh fs hv hnm.2]
  | .eachGen lc i hv, hnm => by
    simp only [allLocs, List.mem_cons, not_or] at hnm
    simp only [mutateAt]
    rw [mutateAt_not_mem l fl fh fs hv hnm.2]
  | .fileReader _, _ => rfl
  | .fileWriter _, _ => rfl
  | .dirHandle _, _ => rfl
  | .dateTimeNT _, _ => rfl
  | .dateTimeOT _, _ => rfl
  | .ipv4 _ _, _ => rfl
  | .ipv6 _ _, _ => rfl
  | .ipv4range _ _, _ => rfl
  | .ipv6range _ _, _ => rfl
  | .ipset _, _ => rfl
  | .multiGen lc gs, hnm => by
    simp only [allLocs, List.mem_cons, not_or] at hnm
    simp only [mutateAt]
    rw [mutateAtList_not_mem l fl fh fs gs hnm.2]

theorem mutateAtList_not_mem (l : Nat) (fl : List Value → List Value)
    (fh fs : List (String × Value) → List (String × Value)) :
    ∀ es : List Value, l ∉ allLocsList es → mutateAtList l fl fh fs es = es
  | [], _ => rfl
  | v :: vs, hnm => by
    simp only [allLocsList, List.mem_append, not_or] at hnm
    simp only [mutateAtList]
    rw [mutateAt_not_mem l fl fh fs v hnm.1,
      mutateAtList_not_mem l fl fh fs vs hnm.2]

theorem mutateAtEntries_not_mem (l : Nat) (fl : List Value → List Value)
    (fh fs : List (String × Value) → List (String × Value)) :
    ∀ es : List (String × Value),
      l ∉ allLocsEntries es → mutateAtEntries l fl fh fs es = es
  | [], _ => rfl
  | (k, v) :: vs, hnm => by
    simp only [allLocsEntries, List.mem_append, not_or] at hnm
    simp only [mutateAtEntries]
    rw [mutateAt_not_mem l fl fh fs v hnm.1,
      mutateAtEntries_not_mem l fl fh fs vs hnm.2]

end

/-- A value whose aggregate nesting passes through an anonymous
function: a list (location 0) holding an anonymous function whose
captured locals (location 1) contain a list (location 2) holding
`Int 1`. -/
def cloneCexV : Value := .list 0 [.anonFn 5 1 [.list 2 [.int 1]]]

/-- C8 counterexample: `value_clone` of `cloneCexV` (fresh locations
from 3) gives the list a fresh location 3 but returns the anonymous
function as a shared `self.clone()`, so the nested list keeps location
2 — it is the *same storage* as in the original.  Mutating that list
storage (pushing `Int 9` at location 2) therefore changes `cloneCexV`
itself: mutating the clone's aggregate storage at nesting depth 2 does
not leave the original unchanged, refuting the claim's "at any nesting
depth". -/
theorem value_clone_shared_through_anonfn :
    (valueClone cloneCexV 3).1 = .list 3 [.anonFn 5 1 [.list 2 [.int 1]]] ∧
    mutateAt 2 (fun es => Value.int 9 :: es) id id cloneCexV ≠ cloneCexV := by
  constructor
  · rfl
  · intro hEq
    simp [cloneCexV, mutateAt, mutateAtList] at hEq

/-- C8 as amended: for every value `v` whose storage locations lie
below the allocation counter, (1) the deep clone is equal to `v` under
value equality (structural equality with storage identities erased),
and (2) mutating any list/hash/set storage of the clone that is nested
only within lists, hashes and sets (the aggregate spine — all freshly
allocated) leaves `v` unchanged.  Aggregates reachable only through
shared-reference variants (anonymous functions, generator locals,
multi-generators, hash-iterator cells) remain shared with `v`, as the
counterexample shows. -/
theorem value_clone_amended (v : Value) (ctr : Nat)
    (hwf : ∀ x ∈ allLocs v, x < ctr) :
    eraseLocs (valueClone v ctr).1 = eraseLocs v ∧
    ∀ l, l ∈ aggLocsSpine (valueClone v ctr).1 →
      ∀ fl fh fs, mutateAt l fl fh fs v = v := by
  refine ⟨valueClone_erase v ctr, ?_⟩
  intro l hl fl fh fs
  refine mutateAt_not_mem l fl fh fs v (fun hmem => ?_)
  have h1 := valueClone_spine_fresh v ctr l hl
  have h2 := hwf l hmem
  omega

/-- Witness for `value_clone_amended` at the concrete value
`List(loc 0)[Int 1]` with counter 1. -/
theorem value_clone_amended_witness :
    eraseLocs (valueClone (Value.list 0 [Value.int 1]) 1).1
      = eraseLocs (Value.list 0 [Value.int 1]) :=
  (value_clone_amended (Value.list 0 [Value.int 1]) 1
    (by intro x hx; simp [allLocs, allLocsList] at hx; omega)).1

/-! ## IP objects (src/vm/vm_ip.rs)

`Ipv4Addr`/`Ipv6Addr` are modelled directly as their integer values
(`Nat` below `2^32` / `2^128`), so the source's octet-folding
`ipv4_addr_to_int`/`ipv6_addr_to_int` helpers are the identity on the
model and are not reproduced.  `Ipv4Net`/`Ipv6Net` are
(address, prefix-length) pairs ordered lexicographically, as the `ipnet`
crate derives. -/

/-- `Ipv4Net::network()`: the address with host bits cleared. -/
def ipv4Network (addr plen : Nat) : Nat :=
  (addr / 2 ^ (32 - plen)) * 2 ^ (32 - plen)

/-- `Ipv6Net::network()`. -/
def ipv6Network (addr plen : Nat) : Nat :=
  (addr / 2 ^ (128 - plen)) * 2 ^ (128 - plen)

/-- The derived `Ord` on `Ipv4Net`/`Ipv6Net`: lexicographic on
(address, prefix length). -/
def ltIpNet (a b : Nat × Nat) : Bool :=
  a.1 < b.1 || (a.1 == b.1 && a.2 < b.2)

/-- Splitting a character list on a separator character, as Rust's
`str::split` does on a one-character pattern (structurally recursive so
that concrete instances reduce definitionally). -/
def splitOnChar (c : Char) : List Char → List (List Char)
  | [] => [[]]
  | d :: ds =>
    let r := splitOnChar c ds
    if d = c then [] :: r
    else
      match r with
      | g :: gs => (d :: g) :: gs
      | [] => [[d]]

/-- Rust's `str::trim`: strip leading and trailing whitespace. -/
def trimChars (cs : List Char) : List Char :=
  ((cs.dropWhile Char.isWhitespace).reverse.dropWhile Char.isWhitespace).reverse

/-- One dotted-quad octet: Rust parses it as a `u8`.  (Rust additionally
rejects leading zeros; the inputs of every theorem have none.) -/
def parseOctet (cs : List Char) : Option Nat :=
  (parseDecDigits cs).bind (fun n => if n ≤ 255 then some n else none)

/-- `Ipv4Addr::from_str`: four dot-separated octets. -/
def parseIpv4Addr (cs : List Char) : Option Nat :=
  match splitOnChar '.' cs with
  | [a, b, c, d] =>
    match parseOctet a, parseOctet b, parseOctet c, parseOctet d with
    | some x1, some x2, some x3, some x4 =>
      some (((x1 * 256 + x2) * 256 + x3) * 256 + x4)
    | _, _, _, _ => none
  | _ => none

/-- `Ipv4Net::from_str`: `addr/prefix` with prefix ≤ 32; input without
a slash fails (the source appends `/32` before calling it when the
input has none). -/
def parseIpv4Net (cs : List Char) : Option (Nat × Nat) :=
  match splitOnChar '/' cs with
  | [a, p] =>
    match parseIpv4Addr a, parseDecDigits p with
    | some addr, some plen => if plen ≤ 32 then some (addr, plen) else none
    | _, _ => none
  | _ => none

def hexVal (c : Char) : Option Nat :=
  if '0' ≤ c ∧ c ≤ '9' then some (c.toNat - 48)
  else if 'a' ≤ c ∧ c ≤ 'f' then some (c.toNat - 87)
  else if 'A' ≤ c ∧ c ≤ 'F' then some (c.toNat - 55)
  else none

def parseHexDigits : List Char → Option Nat
  | [] => none
  | cs =>
    cs.foldl
      (fun a c =>
        match a, hexVal c with
        | some n, some d => some (n * 16 + d)
        | _, _ => none)
      (some 0)

/-- `Ipv6Addr::from_str`, restricted to the full eight-group colon form;
compressed (`::`) and v4-embedded forms are not modelled — no theorem
parses an IPv6 address at all. -/
def parseIpv6Addr (cs : List Char) : Option Nat :=
  let gs := splitOnChar ':' cs
  if gs.length = 8 then
    gs.foldl
      (fun a g =>
        match a, parseHexDigits g with
        | some n, some d => if d ≤ 0xFFFF then some (n * 65536 + d) else none
        | _, _ => none)
      (some 0)
  else none

/-- `Ipv6Net::from_str`: `addr/prefix` with prefix ≤ 128. -/
def parseIpv6Net (cs : List Char) : Option (Nat × Nat) :=
  match splitOnChar '/' cs with
  | [a, p] =>
    match parseIpv6Addr a, parseDecDigits p with
    | some addr, some plen => if plen ≤ 128 then some (addr, plen) else none
    | _, _ => none
  | _ => none

/-- The string-processing body of `VM::core_ip` (src/vm/vm_ip.rs lines
66-238), on the borrowed text: `some v` means `v` is pushed (return 1),
`none` means a parse error is printed and 0 returned.  The `-`-split
checks (`fst`/`snd` present, no third part) are exactly the two-element
match on `splitOn`; the host-bits check `addr & (1 << (32 - len)) - 1`
is `addr % 2^(32 - len)`, evaluated only under the source's guards. -/
def coreIpStr (s : String) : Option Value :=
  let cs := s.data
  if cs.contains '.' then
    if cs.contains '-' then
      match splitOnChar '-' cs with
      | [fstS, sndS] =>
        match parseIpv4Net (trimChars fstS ++ ['/', '3', '2']),
            parseIpv4Net (trimChars sndS ++ ['/', '3', '2']) with
        | some f, some g =>
          if ltIpNet f g then
            some (.ipv4range (ipv4Network f.1 f.2) (ipv4Network g.1 g.2))
          else none
        | _, _ => none
      | _ => none
    else
      match (if !(cs.contains '/') then parseIpv4Net (cs ++ ['/', '3', '2'])
             else parseIpv4Net cs) with
      | some (addr, plen) =>
        if plen = 0 ∧ addr ≠ 0 then none
        else if ¬(plen = 0 ∧ addr = 0) ∧ addr % 2 ^ (32 - plen) ≠ 0 then none
        else some (.ipv4 addr plen)
      | none => none
  else
    if cs.contains '-' then
      match splitOnChar '-' cs with
      | [fstS, sndS] =>
        match parseIpv6Net (trimChars fstS ++ ['/', '1', '2', '8']),
            parseIpv6Net (trimChars sndS ++ ['/', '1', '2', '8']) with
        | some f, some g =>
          if ltIpNet f g then
            some (.ipv6range (ipv6Network f.1 f.2) (ipv6Network g.1 g.2))
          else none
        | _, _ => none
      | _ => none
    else
      match (if !(cs.contains '/') then parseIpv6Net (cs ++ ['/', '1', '2', '8'])
             else parseIpv6Net cs) with
      | some (addr, plen) =>
        if plen = 0 ∧ addr ≠ 0 then none
        else if ¬(plen = 0 ∧ addr = 0) ∧ addr % 2 ^ (128 - plen) ≠ 0 then none
        else some (.ipv6 addr plen)
      | none => none

/-- The `to_str!` macro (src/chunk.rs lines 1218-1242): a `String`
value lends its raw text; any other value goes through
`Value::to_string` (never a `String`, so never the abort arm). -/
def toStrMacro : Value → StrRes
  | .str raw _ => .ok raw
  | v => v.to_string_res

/-- `VM::core_ip` (src/vm/vm_ip.rs lines 55-244).  With an empty stack:
error, return 0.  When `to_str!` yields no string (`value_opt` is
`None`), the outer match falls through to `_ => {}` and the function
returns 1 with nothing pushed — exactly as in the source. -/
def core_ip (stack : List Value) : OpOut :=
  match stack with
  | v :: rest =>
    match toStrMacro v with
    | .ok s =>
      match coreIpStr s with
      | some v2 => .ret 1 (v2 :: rest)
      | none => .ret 0 rest
    | .noStr => .ret 1 rest
    | .panic => .panic
  | [] => .ret 0 []

/-- `u32` subtraction `a - b` (wrapping, as in release builds). -/
def u32Sub (a b : Nat) : Nat := (a + 2 ^ 32 - b) % 2 ^ 32

/-- The halving loop of `core_ip_len` (lines 349-357 and 379-387):
shift the host count right until it reaches 1, decrementing the
length; on a power of two this yields `bits - log2`. -/
def lenLoop (hc len : Nat) : Nat :=
  if _h : hc ≤ 1 then len else lenLoop (hc / 2) (len - 1)
termination_by hc
decreasing_by omega

/-- `VM::core_ip_len` (src/vm/vm_ip.rs lines 325-400).  For an IPv6
range the source subtracts `BigUint`s, which panics when the range is
inverted (`e < s`); `Ipv4Range` host counts use wrapping `u32`
arithmetic. -/
def core_ip_len (stack : List Value) : OpOut :=
  match stack with
  | v :: rest =>
    match v with
    | .ipv4 _ plen => .ret 1 (.int plen :: rest)
    | .ipv4range rs re =>
      if rs = 0 ∧ re = 0xFFFFFFFF then .ret 1 (.int 0 :: rest)
      else
        let hc := (u32Sub re rs + 1) % 2 ^ 32
        if hc &&& (hc - 1) = 0 then .ret 1 (.int (lenLoop hc 32) :: rest)
        else .ret 0 rest
    | .ipv6 _ plen => .ret 1 (.int plen :: rest)
    | .ipv6range rs re =>
      if re < rs then .panic
      else
        let hc := re - rs + 1
        if hc &&& (hc - 1) = 0 then .ret 1 (.int (lenLoop hc 128) :: rest)
        else .ret 0 rest
    | _ => .ret 0 rest
  | [] => .ret 0 []

/-- `VM::core_ip_size` (src/vm/vm_ip.rs lines 568-636).  The `Ipv4`
arm's `(1 << (32 - prefix_len)) - 1` is evaluated only after the
`network = 0 ∧ len = 0` special case, as in the source; `Nat`
exponentiation stands in for the `u32` shift (they agree for the
prefix lengths reachable through `core_ip`). -/
def core_ip_size (stack : List Value) : OpOut :=
  match stack with
  | v :: rest =>
    match v with
    | .ipv4 addr plen =>
      if ipv4Network addr plen = 0 ∧ plen = 0 then
        .ret 1 (.bigint 0xFFFFFFFF :: rest)
      else
        let net := ipv4Network addr plen
        let lastA := net + (2 ^ (32 - plen) - 1)
        .ret 1 (.bigint (lastA - net + 1 : Nat) :: rest)
    | .ipv4range rs re =>
      if rs = 0 ∧ re = 0xFFFFFFFF then
        .ret 1 (.bigint (0xFFFFFFFF + 1) :: rest)
      else .ret 1 (.bigint ((u32Sub re rs + 1) % 2 ^ 32 : Nat) :: rest)
    | .ipv6 addr plen =>
      let net := ipv6Network addr plen
      let lastA := net + (2 ^ (128 - plen) - 1)
      .ret 1 (.bigint (lastA - net + 1 : Nat) :: rest)
    | .ipv6range rs re =>
      if re < rs then .panic
      else .ret 1 (.bigint (re - rs + 1 : Nat) :: rest)
    | _ => .ret 0 rest
  | [] => .ret 0 []

/-- C9: `"10.0.0.0/8"` through `ip` pushes the `Ipv4` object
10.0.0.0/8, on which `ip.len` pushes `Int 8`; `"10.0.0.0-10.0.0.3"`
through `ip` pushes the `Ipv4Range` from 10.0.0.0 (= 0x0A000000) to
10.0.0.3, on which `ip.size` pushes `BigInt 4`. -/
theorem core_ip_len_size_scenarios :
    core_ip [Value.str "10.0.0.0/8" "10.0.0.0/8"]
      = .ret 1 [Value.ipv4 0x0A000000 8] ∧
    core_ip_len [Value.ipv4 0x0A000000 8] = .ret 1 [Value.int 8] ∧
    core_ip [Value.str "10.0.0.0-10.0.0.3" "10.0.0.0-10.0.0.3"]
      = .ret 1 [Value.ipv4range 0x0A000000 0x0A000003] ∧
    core_ip_size [Value.ipv4range 0x0A000000 0x0A000003]
      = .ret 1 [Value.bigint 4] :=
  ⟨rfl, rfl, rfl, rfl⟩

end Cosh
